import Mathlib

/-!
The gRPC calculator server: `CalculatorServiceImpl`, a shallow embedding of
`cpp-server/src/calculator_server.cpp`.

The two handlers compute `request->number1() + request->number2()` and
`request->number1() - request->number2()` on C++ `double`s, store the value
in the reply, write one line to `std::cout` and return `Status::OK`.

The C++ type `double` is embedded as IEEE 754 binary64 (`F64`): a NaN, two
infinities, and the finite values given by a sign bit, an 11-bit biased
exponent field and a 52-bit fraction field.  `+` and `-` are the IEEE 754
operations under the default rounding mode (round to nearest, ties to even).
NaN payloads are not distinguished.
-/

set_option exponentiation.threshold 4096

/-! ## The type `double` -/

/-- An IEEE 754 binary64 value: NaN, a signed infinity, or a finite value with
sign bit `neg`, biased exponent field `expo` and fraction field `frac`. -/
inductive F64 where
  | nan : F64
  | inf (neg : Bool) : F64
  | fin (neg : Bool) (expo : Nat) (frac : Nat) : F64
  deriving DecidableEq

namespace F64

/-- The bit fields of a finite value are in range: the exponent field is at
most 2046 (2047 encodes infinities and NaNs) and the fraction has 52 bits. -/
def WF : F64 → Prop
  | fin _ e m => e ≤ 2046 ∧ m < 2 ^ 52
  | _ => True

instance : DecidablePred WF := fun x =>
  match x with
  | nan => isTrue trivial
  | inf _ => isTrue trivial
  | fin _ e m => inferInstanceAs (Decidable (e ≤ 2046 ∧ m < 2 ^ 52))

/-- Finite: neither NaN nor an infinity (`std::isfinite`). -/
def isFinite : F64 → Bool
  | fin _ _ _ => true
  | _ => false

/-- NaN test (`std::isnan`). -/
def isNaN : F64 → Bool
  | nan => true
  | _ => false

/-- The magnitude of a finite value in units of `2^-1074` (the smallest
subnormal): `frac` for a subnormal, `(2^52 + frac) * 2^(expo - 1)` for a
normal number. -/
def mag (expo frac : Nat) : Nat :=
  if expo = 0 then frac else (2 ^ 52 + frac) * 2 ^ (expo - 1)

/-- The exact value of a finite double in units of `2^-1074`, as an integer
(`0` for NaN and infinities, which have no finite value). -/
def scaled : F64 → Int
  | fin neg e m => if neg then -(mag e m : Int) else (mag e m : Int)
  | _ => 0

/-- Search upward from `k` for a level `j` with `n < 2^(2^j)`; `fuel` bounds
the number of levels tried. -/
def levelFrom : Nat → Nat → Nat → Nat
  | 0, k, _ => k
  | fuel + 1, k, n => if n < 2 ^ 2 ^ k then k else levelFrom fuel (k + 1) n

/-- Bit length of `n < 2^(2^k)` by bisection on the exponent. -/
def bitLenAux : Nat → Nat → Nat
  | 0, n => if n = 0 then 0 else 1
  | k + 1, n =>
    if n < 2 ^ 2 ^ k then bitLenAux k n else 2 ^ k + bitLenAux k (n / 2 ^ 2 ^ k)

/-- The number of binary digits of `n`: the least `b` with `n < 2^b`. -/
def bitLen (n : Nat) : Nat := bitLenAux (levelFrom n 0 n) n

/-- Round to nearest, ties to even: whether the kept digits `q` are to be
incremented, given the dropped digits `r` and half the weight of the last
kept digit. -/
def roundsUp (q r half : Nat) : Bool :=
  decide (half < r) || (decide (r = half) && decide (q % 2 = 1))

/-- Assemble the double with sign `neg` whose 53-digit significand `q`
(`2^52 ≤ q ≤ 2^53`) has its last digit at weight `2^sh` (in units of
`2^-1074`, `sh ≥ 1`): a significand that rounding carried to `2^53` moves to
the next exponent, and an exponent field that would reach 2047 is an
overflow to infinity. -/
def pack (neg : Bool) (sh q : Nat) : F64 :=
  if q = 2 ^ 53 then
    if 2047 ≤ sh + 2 then inf neg else fin neg (sh + 2) 0
  else
    if 2047 ≤ sh + 1 then inf neg else fin neg (sh + 1) (q - 2 ^ 52)

/-- Round the magnitude `n` (in units of `2^-1074`) with sign `neg` to binary64,
to nearest with ties to even.  Magnitudes below `2^53` are representable as
they are (exponent field 0 or 1); above, the top 53 binary digits are kept
and the dropped ones decide the rounding. -/
def ofMag (neg : Bool) (n : Nat) : F64 :=
  if n < 2 ^ 53 then
    if n < 2 ^ 52 then fin neg 0 n else fin neg 1 (n - 2 ^ 52)
  else
    let sh := bitLen n - 53
    let q := n / 2 ^ sh
    let r := n % 2 ^ sh
    pack neg sh (if roundsUp q r (2 ^ (sh - 1)) then q + 1 else q)

/-- Unary minus: flips the sign bit. -/
def neg : F64 → F64
  | nan => nan
  | inf s => inf (!s)
  | fin s e m => fin (!s) e m

/-- The `+` of `double`: IEEE 754 addition, round to nearest, ties to even.
An exact zero sum is `+0` unless both operands are negative zeros. -/
def add : F64 → F64 → F64
  | nan, _ => nan
  | _, nan => nan
  | inf s, inf t => if s = t then inf s else nan
  | inf s, fin _ _ _ => inf s
  | fin _ _ _, inf t => inf t
  | fin s1 e1 m1, fin s2 e2 m2 =>
    let x := scaled (fin s1 e1 m1) + scaled (fin s2 e2 m2)
    if x = 0 then fin (s1 && s2) 0 0
    else ofMag (decide (x < 0)) x.natAbs

/-- The `-` of `double`: IEEE 754 subtraction, `a - b = a + (-b)`. -/
def sub (a b : F64) : F64 := add a (neg b)

instance : Add F64 := ⟨add⟩
instance : Sub F64 := ⟨sub⟩
instance : Neg F64 := ⟨neg⟩

/-- Zero test: `+0` or `-0`. -/
def isZero : F64 → Bool
  | fin _ e m => decide (e = 0) && decide (m = 0)
  | _ => false

/-- The `==` of `double`: a NaN equals nothing, the two zeros are equal, any
other two values are equal when they are the same value. -/
def feq (a b : F64) : Bool :=
  !a.isNaN && !b.isNaN && ((a.isZero && b.isZero) || decide (a = b))

/-- The double nearest to `n / 2^k`, for `k ≤ 1074` (used to write constants:
`ofDyadic 2 0` is `2.0`, `ofDyadic (-9) 1` is `-4.5`). -/
def ofDyadic (n : Int) (k : Nat) : F64 :=
  ofMag (decide (n < 0)) (n.natAbs * 2 ^ (1074 - k))

/-- The least magnitude, in units of `2^-1074`, that rounds to an infinity:
`2^1024 - 2^970`, that is `DBL_MAX` plus half a unit in its last place. -/
def overflowAt : Nat := (2 ^ 54 - 1) * 2 ^ 2044

/-- The constant `0.0`. -/
def zero : F64 := fin false 0 0

/-- The constant `DBL_MAX`, the largest finite double, `(2^53 - 1) * 2^971`. -/
def dblMax : F64 := fin false 2046 (2 ^ 52 - 1)

end F64

/-! ## Messages, status and the output stream

`OperationRequest` and `OperationResponse` are the protobuf messages of the
service: two `double` fields `number1`, `number2`, and one `double` field
`result`.  `grpc::Status` carries a status code and an error message;
`Status::OK` has code 0.  `std::cout` is the sequence of characters written
to it so far.  How the stream prints a `double` (`operator<<(double)`) is the
standard library's business and is a parameter `fmt` of the handlers; as
`F64` has a single NaN, a NaN is printed as one text whatever its sign bit. -/

/-- The request message: the two operands. -/
structure OperationRequest where
  number1 : F64
  number2 : F64
  deriving DecidableEq

/-- The response message: the result. -/
structure OperationResponse where
  result : F64
  deriving DecidableEq

/-- A `grpc::Status`: status code and error message. -/
structure Status where
  code : Nat
  message : String
  deriving DecidableEq

/-- The constant `Status::OK`. -/
def Status.OK : Status := { code := 0, message := "" }

/-- What a handler call leaves behind: the returned status, the reply object
and the contents of `std::cout`. -/
structure Outcome where
  status : Status
  reply : OperationResponse
  cout : String
  deriving DecidableEq

/-! ## The handlers -/

namespace CalculatorServiceImpl

/-- The handler `Status Add(ServerContext*, const OperationRequest* request,
OperationResponse* reply)`; `reply` and `cout` are the reply object and the
stream contents on entry. -/
def Add (fmt : F64 → String) (request : OperationRequest)
    (reply : OperationResponse) (cout : String) : Outcome :=
  let result : F64 := request.number1 + request.number2
  let reply : OperationResponse := { reply with result := result }
  let cout : String :=
    cout ++ "[Server] Add: " ++ fmt request.number1
      ++ " + " ++ fmt request.number2
      ++ " = " ++ fmt result ++ "\n"
  { status := Status.OK, reply := reply, cout := cout }

/-- The handler `Status Subtract(ServerContext*, const OperationRequest*
request, OperationResponse* reply)`. -/
def Subtract (fmt : F64 → String) (request : OperationRequest)
    (reply : OperationResponse) (cout : String) : Outcome :=
  let result : F64 := request.number1 - request.number2
  let reply : OperationResponse := { reply with result := result }
  let cout : String :=
    cout ++ "[Server] Subtract: " ++ fmt request.number1
      ++ " - " ++ fmt request.number2
      ++ " = " ++ fmt result ++ "\n"
  { status := Status.OK, reply := reply, cout := cout }

end CalculatorServiceImpl

/-! ## Sequences of calls on one service instance -/

/-- One incoming call: which handler, its request, and the reply object the
transport hands to the handler. -/
inductive Call where
  | add (request : OperationRequest) (reply : OperationResponse) : Call
  | subtract (request : OperationRequest) (reply : OperationResponse) : Call
  deriving DecidableEq

/-- The request of a call. -/
def Call.request : Call → OperationRequest
  | .add r _ => r
  | .subtract r _ => r

/-- Whether two calls invoke the same handler. -/
def Call.sameOp : Call → Call → Bool
  | .add _ _, .add _ _ => true
  | .subtract _ _, .subtract _ _ => true
  | _, _ => false

/-- Dispatch one call to its handler.  `CalculatorServiceImpl` has no data
members, so the only state a call can find or leave is the stream. -/
def dispatch (fmt : F64 → String) (c : Call) (cout : String) : Outcome :=
  match c with
  | .add request reply => CalculatorServiceImpl.Add fmt request reply cout
  | .subtract request reply => CalculatorServiceImpl.Subtract fmt request reply cout

/-- Serve a sequence of calls one after the other, threading `std::cout`
through; yields the status and reply of each call and the final stream. -/
def serveAll (fmt : F64 → String) :
    List Call → String → List (Status × OperationResponse) × String
  | [], cout => ([], cout)
  | c :: rest, cout =>
    let o := dispatch fmt c cout
    let r := serveAll fmt rest o.cout
    ((o.status, o.reply) :: r.1, r.2)

/-! ## The handlers statement by statement, and concurrent calls

For calls that run at the same time the handler bodies are split into their
statements.  A statement either works on the call's own frame (its request,
its reply object, its local `result`, its return value) or is one insertion
into the shared `std::cout`. -/

/-- The frame of one handler call. -/
structure Frame where
  request : OperationRequest
  reply : OperationResponse
  result : F64
  ret : Option Status
  deriving DecidableEq

/-- One statement of a handler body. -/
inductive Stmt where
  | loc (f : Frame → Frame) : Stmt
  | out (g : Frame → String) : Stmt

/-- The effect of a statement on the frame of its call. -/
def Stmt.onFrame : Stmt → Frame → Frame
  | .loc f, fr => f fr
  | .out _, fr => fr

/-- The effect of a statement on the stream. -/
def Stmt.onCout : Stmt → Frame → String → String
  | .loc _, _, cout => cout
  | .out g, fr, cout => cout ++ g fr

namespace CalculatorServiceImpl

/-- The body of `Add`, lines 19 to 24. -/
def AddBody (fmt : F64 → String) : List Stmt :=
  [ .loc (fun fr => { fr with result := fr.request.number1 + fr.request.number2 }),
    .loc (fun fr => { fr with reply := { fr.reply with result := fr.result } }),
    .out (fun _ => "[Server] Add: "),
    .out (fun fr => fmt fr.request.number1),
    .out (fun _ => " + "),
    .out (fun fr => fmt fr.request.number2),
    .out (fun _ => " = "),
    .out (fun fr => fmt fr.result),
    .out (fun _ => "\n"),
    .loc (fun fr => { fr with ret := some Status.OK }) ]

/-- The body of `Subtract`, lines 29 to 34. -/
def SubtractBody (fmt : F64 → String) : List Stmt :=
  [ .loc (fun fr => { fr with result := fr.request.number1 - fr.request.number2 }),
    .loc (fun fr => { fr with reply := { fr.reply with result := fr.result } }),
    .out (fun _ => "[Server] Subtract: "),
    .out (fun fr => fmt fr.request.number1),
    .out (fun _ => " - "),
    .out (fun fr => fmt fr.request.number2),
    .out (fun _ => " = "),
    .out (fun fr => fmt fr.result),
    .out (fun _ => "\n"),
    .loc (fun fr => { fr with ret := some Status.OK }) ]

end CalculatorServiceImpl

/-- Run a body to its end on its own. -/
def execBody : List Stmt → Frame → String → Frame × String
  | [], fr, cout => (fr, cout)
  | st :: rest, fr, cout => execBody rest (st.onFrame fr) (st.onCout fr cout)

/-- A call in progress: the statements still to run and the frame. -/
structure Thread where
  code : List Stmt
  frame : Frame

/-- Two calls in progress on the same service instance and the stream they
share. -/
structure Sys where
  t1 : Thread
  t2 : Thread
  cout : String

/-- The next statement of a call, run against the shared stream. -/
def Thread.step (t : Thread) (cout : String) : Thread × String :=
  match t.code with
  | [] => (t, cout)
  | st :: rest => ({ code := rest, frame := st.onFrame t.frame }, st.onCout t.frame cout)

/-- One scheduling decision: `false` lets the first call run its next
statement, `true` the second. -/
def Sys.step (s : Sys) (pick : Bool) : Sys :=
  if pick then
    let r := s.t2.step s.cout
    { s with t2 := r.1, cout := r.2 }
  else
    let r := s.t1.step s.cout
    { s with t1 := r.1, cout := r.2 }

/-- Run the two calls under a schedule. -/
def Sys.run (s : Sys) (sched : List Bool) : Sys := sched.foldl Sys.step s

/-- A call on its own after `k` of its statements. -/
def Thread.advance : Nat → Thread → Thread
  | 0, t => t
  | k + 1, t =>
    match t.code with
    | [] => t
    | st :: rest => Thread.advance k { code := rest, frame := st.onFrame t.frame }

/-- A number printer for examples: prints the small integers used below the
way the stream does by default, and a placeholder for every other value. -/
def fmtDemo (d : F64) : String :=
  if d = F64.ofDyadic 0 0 then "0"
  else if d = F64.ofDyadic 1 0 then "1"
  else if d = F64.ofDyadic 2 0 then "2"
  else if d = F64.ofDyadic 3 0 then "3"
  else if d = F64.ofDyadic 5 0 then "5"
  else if d = F64.ofDyadic 7 0 then "7"
  else if d = F64.ofDyadic 10 0 then "10"
  else "?"

/-- A schedule for examples: the first call runs two statements, then the two
calls alternate, then the second call runs what it has left. -/
def schedDemo : List Bool :=
  [false, false, true, false, true, false, true, false, true, false,
   true, false, true, false, true, false, true, true, true, false, true, true]
/-! ## Bit length -/

namespace F64

theorem levelFrom_spec (fuel k n : Nat) (h : n < 2 ^ 2 ^ (k + fuel)) :
    n < 2 ^ 2 ^ levelFrom fuel k n := by
  induction fuel generalizing k with
  | zero => simpa [levelFrom] using h
  | succ f ih =>
    unfold levelFrom
    split
    · assumption
    · apply ih
      have : k + 1 + f = k + (f + 1) := by omega
      rw [this]; exact h

theorem lt_level (n : Nat) : n < 2 ^ 2 ^ levelFrom n 0 n := by
  apply levelFrom_spec
  have h1 : n < 2 ^ n := Nat.lt_two_pow n
  have h2 : n < 2 ^ (0 + n) := by simpa using h1
  exact lt_trans h1 (Nat.pow_lt_pow_right (by decide) h2)

theorem bitLenAux_spec (k n : Nat) (h : n < 2 ^ 2 ^ k) :
    n < 2 ^ bitLenAux k n ∧ (n ≠ 0 → 2 ^ (bitLenAux k n - 1) ≤ n) := by
  induction k generalizing n with
  | zero =>
    unfold bitLenAux
    simp at h
    split
    · subst_vars; simp
    · have : n = 1 := by omega
      subst this; simp
  | succ k ih =>
    unfold bitLenAux
    split
    · rename_i hlt
      exact ih n hlt
    · rename_i hge
      have hge : 2 ^ 2 ^ k ≤ n := Nat.le_of_not_lt hge
      have hP : 0 < 2 ^ 2 ^ k := Nat.two_pow_pos _
      have hsq : (2:Nat) ^ 2 ^ (k + 1) = 2 ^ 2 ^ k * 2 ^ 2 ^ k := by
        rw [← Nat.pow_add, Nat.pow_succ]; congr 1; omega
      have hq : n / 2 ^ 2 ^ k < 2 ^ 2 ^ k := by
        rw [Nat.div_lt_iff_lt_mul hP, ← hsq]; exact h
      have hq0 : n / 2 ^ 2 ^ k ≠ 0 := by
        have : 1 ≤ n / 2 ^ 2 ^ k := (Nat.le_div_iff_mul_le hP).2 (by simpa using hge)
        omega
      obtain ⟨h1, h2⟩ := ih _ hq
      have h2 := h2 hq0
      have hb : 1 ≤ bitLenAux k (n / 2 ^ 2 ^ k) := by
        rcases Nat.eq_zero_or_pos (bitLenAux k (n / 2 ^ 2 ^ k)) with h0 | h0
        · rw [h0] at h1; simp at h1; omega
        · exact h0
      constructor
      · rw [Nat.pow_add]
        have := (Nat.div_lt_iff_lt_mul hP).1 h1
        rw [Nat.mul_comm]; exact this
      · intro _
        have e : 2 ^ k + bitLenAux k (n / 2 ^ 2 ^ k) - 1
            = (bitLenAux k (n / 2 ^ 2 ^ k) - 1) + 2 ^ k := by
          rw [Nat.add_sub_assoc hb, Nat.add_comm]
        rw [e, Nat.pow_add]
        exact (Nat.le_div_iff_mul_le hP).1 h2

theorem bitLen_spec (n : Nat) :
    n < 2 ^ bitLen n ∧ (n ≠ 0 → 2 ^ (bitLen n - 1) ≤ n) :=
  bitLenAux_spec _ n (lt_level n)

/-- The bit length of a number with `b + 1` binary digits is `b + 1`. -/
theorem bitLen_eq (n b : Nat) (h1 : 2 ^ b ≤ n) (h2 : n < 2 ^ (b + 1)) :
    bitLen n = b + 1 := by
  obtain ⟨s1, s2⟩ := bitLen_spec n
  have hn : n ≠ 0 := by
    have : 0 < 2 ^ b := Nat.two_pow_pos _
    omega
  have s2 := s2 hn
  have a1 : b < bitLen n := (Nat.pow_lt_pow_iff_right (by decide : 1 < 2)).1 (lt_of_le_of_lt h1 s1)
  have a2 : bitLen n - 1 < b + 1 :=
    (Nat.pow_lt_pow_iff_right (by decide : 1 < 2)).1 (lt_of_le_of_lt s2 h2)
  omega

end F64

/-! ## Rounding -/

namespace F64

/-- The rounding of a magnitude with `53 + sh` binary digits, `sh ≥ 1`, with
the shift made explicit. -/
theorem ofMag_large (s : Bool) (n sh : Nat) (hsh : 1 ≤ sh)
    (h1 : 2 ^ (52 + sh) ≤ n) (h2 : n < 2 ^ (53 + sh)) :
    ofMag s n =
      pack s sh (if roundsUp (n / 2 ^ sh) (n % 2 ^ sh) (2 ^ (sh - 1)) then n / 2 ^ sh + 1
        else n / 2 ^ sh) := by
  have hb : bitLen n = 52 + sh + 1 :=
    bitLen_eq n (52 + sh) h1 (by rw [show 52 + sh + 1 = 53 + sh by omega]; exact h2)
  have hbig : ¬ n < 2 ^ 53 := by
    have : (2:Nat) ^ 53 ≤ 2 ^ (52 + sh) := Nat.pow_le_pow_right (by decide) (by omega)
    omega
  have hs : bitLen n - 53 = sh := by omega
  unfold ofMag
  rw [if_neg hbig, hs]

/-- The quotient kept by the rounding has exactly 53 binary digits. -/
theorem quot_bounds (n sh : Nat) (h1 : 2 ^ (52 + sh) ≤ n) (h2 : n < 2 ^ (53 + sh)) :
    2 ^ 52 ≤ n / 2 ^ sh ∧ n / 2 ^ sh < 2 ^ 53 := by
  have hP : 0 < 2 ^ sh := Nat.two_pow_pos _
  constructor
  · rw [Nat.le_div_iff_mul_le hP, ← Nat.pow_add]; exact h1
  · rw [Nat.div_lt_iff_lt_mul hP, ← Nat.pow_add]; exact h2

/-- Any magnitude of at least 2^53 has `53 + sh` binary digits for some
`sh ≥ 1`. -/
theorem exists_shift (n : Nat) (h : 2 ^ 53 ≤ n) :
    ∃ sh, 1 ≤ sh ∧ 2 ^ (52 + sh) ≤ n ∧ n < 2 ^ (53 + sh) := by
  obtain ⟨s1, s2⟩ := bitLen_spec n
  have hn : n ≠ 0 := by
    have : 0 < 2 ^ 53 := Nat.two_pow_pos _
    omega
  have s2 := s2 hn
  have hL : 53 < bitLen n :=
    (Nat.pow_lt_pow_iff_right (by decide : 1 < 2)).1 (lt_of_le_of_lt h s1)
  refine ⟨bitLen n - 53, by omega, ?_, ?_⟩
  · have : 52 + (bitLen n - 53) = bitLen n - 1 := by omega
    rw [this]; exact s2
  · have : 53 + (bitLen n - 53) = bitLen n := by omega
    rw [this]; exact s1

/-- Packing never produces a NaN. -/
theorem pack_ne_nan (s : Bool) (sh q : Nat) : pack s sh q ≠ nan := by
  unfold pack
  split <;> split <;> simp

/-- Rounding never produces a NaN. -/
theorem ofMag_ne_nan (s : Bool) (n : Nat) : ofMag s n ≠ nan := by
  unfold ofMag
  simp only []
  split
  · split <;> simp
  · exact pack_ne_nan _ _ _

/-- Packing commutes with negation. -/
theorem neg_pack (s : Bool) (sh q : Nat) : neg (pack s sh q) = pack (!s) sh q := by
  unfold pack
  split <;> split <;> rfl

/-- Rounding commutes with negation. -/
theorem neg_ofMag (s : Bool) (n : Nat) : neg (ofMag s n) = ofMag (!s) n := by
  unfold ofMag
  simp only []
  split
  · split <;> rfl
  · exact neg_pack _ _ _

/-- Rounding the exact value of a well-formed finite double gives it back. -/
theorem ofMag_mag (s : Bool) (e m : Nat) (he : e ≤ 2046) (hm : m < 2 ^ 52) :
    ofMag s (mag e m) = fin s e m := by
  rcases Nat.lt_or_ge e 2 with h | h
  · rcases Nat.eq_zero_or_pos e with h0 | h0
    · subst h0
      have h53 : m < 2 ^ 53 := by omega
      simp only [mag, ofMag, if_true, if_pos h53, if_pos hm]
    · have : e = 1 := by omega
      subst this
      have h53 : 2 ^ 52 + m < 2 ^ 53 := by omega
      have h52 : ¬ (2 ^ 52 + m < 2 ^ 52) := by omega
      have e0 : (2 ^ 52 + m) * 2 ^ (1 - 1) = 2 ^ 52 + m := by simp
      have e1 : 2 ^ 52 + m - 2 ^ 52 = m := by omega
      simp only [mag, ofMag, one_ne_zero, if_false, e0, if_pos h53, if_neg h52, e1]
  · have hpos : 0 < 2 ^ (e - 1) := Nat.two_pow_pos _
    have hmag : mag e m = (2 ^ 52 + m) * 2 ^ (e - 1) := by
      have : e ≠ 0 := by omega
      simp [mag, this]
    have h1 : 2 ^ (52 + (e - 1)) ≤ mag e m := by
      rw [hmag, Nat.pow_add]
      exact Nat.mul_le_mul_right _ (by omega)
    have h2 : mag e m < 2 ^ (53 + (e - 1)) := by
      rw [hmag, Nat.pow_add]
      exact Nat.mul_lt_mul_of_pos_right (by omega) hpos
    rw [ofMag_large s _ (e - 1) (by omega) h1 h2]
    have hq : mag e m / 2 ^ (e - 1) = 2 ^ 52 + m := by
      rw [hmag]; exact Nat.mul_div_cancel _ hpos
    have hr : mag e m % 2 ^ (e - 1) = 0 := by
      rw [hmag]; exact Nat.mul_mod_left _ _
    have hhalf : 0 < 2 ^ (e - 1 - 1) := Nat.two_pow_pos _
    have hup : roundsUp (2 ^ 52 + m) 0 (2 ^ (e - 1 - 1)) = false := by
      unfold roundsUp
      rw [Bool.or_eq_false_iff, Bool.and_eq_false_iff, decide_eq_false_iff_not,
        decide_eq_false_iff_not]
      omega
    have hq53 : ¬ (2 ^ 52 + m = 2 ^ 53) := by omega
    have he2 : ¬ (2047 ≤ e - 1 + 1) := by omega
    rw [hq, hr, hup]
    simp only [Bool.false_eq_true, if_false]
    unfold pack
    rw [if_neg hq53, if_neg he2, Nat.add_sub_cancel_left, Nat.sub_add_cancel (by omega)]

end F64

namespace F64

/-- A last kept digit of weight `2^2046` or more is beyond the exponent range. -/
theorem pack_overflow (s : Bool) (sh q : Nat) (h : 2046 ≤ sh) : pack s sh q = inf s := by
  unfold pack
  split
  · rw [if_pos (by omega)]
  · rw [if_pos (by omega)]

/-- Rounding overflows from `overflowAt` on. -/
theorem ofMag_overflow (s : Bool) (n : Nat) (h : overflowAt ≤ n) : ofMag s n = inf s := by
  unfold overflowAt at h
  have h53 : 2 ^ 53 ≤ n := by omega
  obtain ⟨sh, hsh, h1, h2⟩ := exists_shift n h53
  rw [ofMag_large s n sh hsh h1 h2]
  rcases Nat.lt_or_ge sh 2046 with hlt | hge
  · have hsh45 : sh = 2045 := by
      have : 2097 < 53 + sh := by
        apply (Nat.pow_lt_pow_iff_right (by decide : 1 < 2)).1
        have : 2 ^ 2097 ≤ n := by omega
        omega
      omega
    subst hsh45
    have hq : n / 2 ^ 2045 = 2 ^ 53 - 1 := by omega
    have hr : 2 ^ 2044 ≤ n % 2 ^ 2045 := by omega
    have hup : roundsUp (n / 2 ^ 2045) (n % 2 ^ 2045) (2 ^ (2045 - 1)) = true := by
      unfold roundsUp
      rw [Bool.or_eq_true, Bool.and_eq_true, decide_eq_true_eq, decide_eq_true_eq,
        decide_eq_true_eq, hq, show 2045 - 1 = 2044 from rfl]
      omega
    rw [hup, if_pos rfl, hq]
    have hc : 2 ^ 53 - 1 + 1 = 2 ^ 53 := by norm_num
    unfold pack
    rw [if_pos hc, if_pos (by omega)]
  · exact pack_overflow _ _ _ hge

end F64

namespace F64

/-- Below `overflowAt` rounding gives a finite double with fields in range. -/
theorem ofMag_finite (s : Bool) (n : Nat) (h : n < overflowAt) :
    ∃ e m, ofMag s n = fin s e m ∧ e ≤ 2046 ∧ m < 2 ^ 52 := by
  unfold overflowAt at h
  rcases Nat.lt_or_ge n (2 ^ 53) with hlt | h53
  · unfold ofMag
    rw [if_pos hlt]
    split
    · exact ⟨0, n, rfl, by omega, by assumption⟩
    · exact ⟨1, n - 2 ^ 52, rfl, by omega, by omega⟩
  · obtain ⟨sh, hsh, h1, h2⟩ := exists_shift n h53
    obtain ⟨hq1, hq2⟩ := quot_bounds n sh h1 h2
    rw [ofMag_large s n sh hsh h1 h2]
    have hsh45 : sh ≤ 2045 := by
      have : 52 + sh < 2098 := by
        apply (Nat.pow_lt_pow_iff_right (by decide : 1 < 2)).1
        have : n < 2 ^ 2098 := by omega
        omega
      omega
    generalize hq : n / 2 ^ sh = q at hq1 hq2 ⊢
    generalize hr : n % 2 ^ sh = r
    by_cases hup : roundsUp q r (2 ^ (sh - 1)) = true
    · rw [if_pos hup]
      unfold pack
      by_cases hc : q + 1 = 2 ^ 53
      · rw [if_pos hc]
        have hsh44 : sh ≤ 2044 := by
          rcases Nat.lt_or_ge sh 2045 with h3 | h3
          · omega
          · exfalso
            have : sh = 2045 := by omega
            subst this
            unfold roundsUp at hup
            rw [Bool.or_eq_true, Bool.and_eq_true, decide_eq_true_eq, decide_eq_true_eq,
              decide_eq_true_eq, show 2045 - 1 = 2044 from rfl] at hup
            omega
        rw [if_neg (by omega)]
        exact ⟨sh + 2, 0, rfl, by omega, by norm_num⟩
      · rw [if_neg hc, if_neg (by omega)]
        exact ⟨sh + 1, q + 1 - 2 ^ 52, rfl, by omega, by omega⟩
    · rw [if_neg hup]
      unfold pack
      rw [if_neg (by omega), if_neg (by omega)]
      exact ⟨sh + 1, q - 2 ^ 52, rfl, by omega, by omega⟩

/-- The exact value of a negated double. -/
theorem scaled_neg (a : F64) : scaled (neg a) = - scaled a := by
  cases a with
  | nan => rfl
  | inf s => rfl
  | fin s e m => cases s <;> simp [neg, scaled]

/-- The sign and magnitude of a nonzero exact value. -/
theorem scaled_fin_sign (s : Bool) (e m : Nat) (h : scaled (fin s e m) ≠ 0) :
    decide (scaled (fin s e m) < 0) = s ∧ (scaled (fin s e m)).natAbs = mag e m := by
  cases s
  · simp only [scaled, Bool.false_eq_true, if_false] at h ⊢
    constructor
    · simp
    · simp
  · simp only [scaled, if_true] at h ⊢
    constructor
    · simp only [decide_eq_true_eq]; omega
    · simp

/-- A well-formed finite double of exact value 0 is a zero. -/
theorem isZero_of_scaled (s : Bool) (e m : Nat) (h : scaled (fin s e m) = 0) :
    isZero (fin s e m) = true := by
  have hm : mag e m = 0 := by
    cases s
    · simpa [scaled] using h
    · simpa [scaled] using h
  unfold mag at hm
  split at hm
  · rename_i he
    simp [isZero, he, hm]
  · exfalso
    have h1 : 0 < 2 ^ (e - 1) := Nat.two_pow_pos _
    have h2 : 0 < 2 ^ 52 + m := by
      have : 0 < 2 ^ 52 := Nat.two_pow_pos _
      omega
    have := Nat.mul_pos h2 h1
    omega

/-- `x == x` for every `x` that is not a NaN. -/
theorem feq_self (a : F64) (h : a ≠ nan) : feq a a = true := by
  cases a with
  | nan => exact absurd rfl h
  | inf s => simp [feq, isNaN]
  | fin s e m => simp [feq, isNaN]

/-- Any two zeros are `==`. -/
theorem feq_zeros (a b : F64) (ha : isZero a = true) (hb : isZero b = true) :
    feq a b = true := by
  cases a <;> cases b <;> simp_all [feq, isNaN, isZero]

/-- Addition of finite doubles as rounding of the exact sum. -/
theorem add_fin (s1 : Bool) (e1 m1 : Nat) (s2 : Bool) (e2 m2 : Nat) :
    add (fin s1 e1 m1) (fin s2 e2 m2) =
      if scaled (fin s1 e1 m1) + scaled (fin s2 e2 m2) = 0 then fin (s1 && s2) 0 0
      else ofMag (decide (scaled (fin s1 e1 m1) + scaled (fin s2 e2 m2) < 0))
        (scaled (fin s1 e1 m1) + scaled (fin s2 e2 m2)).natAbs := rfl

/-- Addition of finite doubles is commutative. -/
theorem add_comm_fin (a b : F64) (ha : a.isFinite = true) (hb : b.isFinite = true) :
    add a b = add b a := by
  cases a <;> cases b <;> simp [isFinite] at ha hb
  rw [add_fin, add_fin, Int.add_comm, Bool.and_comm]

/-- The sum of finite doubles is never a NaN. -/
theorem add_fin_ne_nan (a b : F64) (ha : a.isFinite = true) (hb : b.isFinite = true) :
    add a b ≠ nan := by
  cases a <;> cases b <;> simp [isFinite] at ha hb
  rw [add_fin]
  split
  · simp
  · exact ofMag_ne_nan _ _

/-- When the exact sum of two finite doubles is itself a double, the sum is
that double (up to the sign of a zero). -/
theorem add_exact (a b c : F64) (ha : a.isFinite = true) (hb : b.isFinite = true)
    (hc : c.isFinite = true) (hwf : c.WF) (h : scaled c = scaled a + scaled b) :
    feq (add a b) c = true ∧ (c.isZero = false → add a b = c) := by
  cases a <;> cases b <;> cases c <;> simp [isFinite] at ha hb hc
  rename_i s1 e1 m1 s2 e2 m2 s e m
  rw [add_fin, ← h]
  obtain ⟨he, hm⟩ := hwf
  by_cases hx : scaled (fin s e m) = 0
  · rw [if_pos hx]
    have hz := isZero_of_scaled s e m hx
    exact ⟨feq_zeros _ _ (by simp [isZero]) hz, fun h0 => by rw [hz] at h0; cases h0⟩
  · rw [if_neg hx]
    obtain ⟨hs, hn⟩ := scaled_fin_sign s e m hx
    rw [hs, hn, ofMag_mag s e m he hm]
    exact ⟨feq_self _ (by simp), fun _ => rfl⟩

end F64

namespace F64

/-- The magnitude of a normal double lies between consecutive powers of two. -/
theorem mag_bounds (e m : Nat) (he : 1 ≤ e) (hm : m < 2 ^ 52) :
    2 ^ (52 + (e - 1)) ≤ mag e m ∧ mag e m < 2 ^ (53 + (e - 1)) := by
  have hpos : 0 < 2 ^ (e - 1) := Nat.two_pow_pos _
  have hmag : mag e m = (2 ^ 52 + m) * 2 ^ (e - 1) := by
    have : e ≠ 0 := by omega
    simp [mag, this]
  constructor
  · rw [hmag, Nat.pow_add]
    exact Nat.mul_le_mul_right _ (by omega)
  · rw [hmag, Nat.pow_add]
    exact Nat.mul_lt_mul_of_pos_right (by omega) hpos

/-- No double lies strictly between two neighbouring 53-digit multiples of
`2^sh`. -/
theorem mag_gap (e m sh q : Nat) (hm : m < 2 ^ 52) (hsh : 1 ≤ sh)
    (hq1 : 2 ^ 52 ≤ q) (hq2 : q < 2 ^ 53) :
    mag e m ≤ q * 2 ^ sh ∨ (q + 1) * 2 ^ sh ≤ mag e m := by
  by_contra hcon
  rw [not_or, Nat.not_le, Nat.not_le] at hcon
  obtain ⟨c1, c2⟩ := hcon
  have hP : 0 < 2 ^ sh := Nat.two_pow_pos _
  have hP2 : 2 ≤ 2 ^ sh := by
    calc 2 = 2 ^ 1 := rfl
      _ ≤ 2 ^ sh := Nat.pow_le_pow_right (by decide) hsh
  have lo : 2 ^ (52 + sh) < mag e m := by
    rw [Nat.pow_add]
    exact lt_of_le_of_lt (Nat.mul_le_mul_right _ hq1) c1
  have hi : mag e m < 2 ^ (53 + sh) := by
    rw [Nat.pow_add]
    exact lt_of_lt_of_le c2 (Nat.mul_le_mul_right _ (by omega))
  have he : 2 ≤ e := by
    by_contra hlt
    have h53 : (2:Nat) ^ 53 ≤ 2 ^ (52 + sh) := Nat.pow_le_pow_right (by decide) (by omega)
    rcases Nat.eq_zero_or_pos e with h0 | h0
    · subst h0
      simp only [mag, if_true] at lo
      omega
    · have : e = 1 := by omega
      subst this
      simp only [mag, one_ne_zero, if_false, Nat.sub_self, Nat.pow_zero, Nat.mul_one] at lo
      omega
  obtain ⟨b1, b2⟩ := mag_bounds e m (by omega) hm
  have e1 : 52 + sh < 53 + (e - 1) :=
    (Nat.pow_lt_pow_iff_right (by decide : 1 < 2)).1 (lt_trans lo b2)
  have e2 : 52 + (e - 1) < 53 + sh :=
    (Nat.pow_lt_pow_iff_right (by decide : 1 < 2)).1 (lt_of_le_of_lt b1 hi)
  have hee : e - 1 = sh := by omega
  have hmag : mag e m = (2 ^ 52 + m) * 2 ^ sh := by
    have : e ≠ 0 := by omega
    simp [mag, this, hee]
  rw [hmag] at c1 c2
  have d1 := Nat.lt_of_mul_lt_mul_right c1
  have d2 := Nat.lt_of_mul_lt_mul_right c2
  omega

/-- The magnitude of an assembled double. -/
theorem mag_pack (s : Bool) (sh q e m : Nat) (hq1 : 2 ^ 52 ≤ q) (hq2 : q ≤ 2 ^ 53)
    (h : pack s sh q = fin s e m) : mag e m = q * 2 ^ sh := by
  unfold pack at h
  split at h
  · rename_i hc
    split at h
    · cases h
    · obtain ⟨_, h2, h3⟩ := F64.fin.inj h
      subst h2; subst h3; subst hc
      simp only [mag, Nat.add_zero]
      rw [if_neg (by omega), show sh + 2 - 1 = sh + 1 by omega, Nat.pow_succ 2 sh,
        show (2:Nat) ^ 53 = 2 ^ 52 * 2 by norm_num, Nat.mul_assoc, Nat.mul_comm 2 (2 ^ sh)]
  · split at h
    · cases h
    · obtain ⟨_, h2, h3⟩ := F64.fin.inj h
      subst h2; subst h3
      simp only [mag]
      rw [if_neg (by omega), show sh + 1 - 1 = sh by omega,
        show 2 ^ 52 + (q - 2 ^ 52) = q by omega]

/-- Rounding is to nearest: a finite result of rounding `n` is at least as
close to `n` as any double. -/
theorem ofMag_nearest (s : Bool) (n e m e0 m0 : Nat) (h : ofMag s n = fin s e m)
    (hm0 : m0 < 2 ^ 52) :
    ((mag e m : Int) - n).natAbs ≤ ((mag e0 m0 : Int) - n).natAbs := by
  rcases Nat.lt_or_ge n (2 ^ 53) with hlt | h53
  · have hmag : mag e m = n := by
      unfold ofMag at h
      rw [if_pos hlt] at h
      split at h
      · obtain ⟨_, h2, h3⟩ := F64.fin.inj h
        subst h2; subst h3
        simp [mag]
      · obtain ⟨_, h2, h3⟩ := F64.fin.inj h
        subst h2; subst h3
        simp only [mag, one_ne_zero, if_false, Nat.sub_self, Nat.pow_zero, Nat.mul_one]
        omega
    rw [hmag]
    simp
  · obtain ⟨sh, hsh, h1, h2⟩ := exists_shift n h53
    obtain ⟨hq1, hq2⟩ := quot_bounds n sh h1 h2
    rw [ofMag_large s n sh hsh h1 h2] at h
    have hn : n = 2 ^ sh * (n / 2 ^ sh) + n % 2 ^ sh := (Nat.div_add_mod n (2 ^ sh)).symm
    have hr : n % 2 ^ sh < 2 ^ sh := Nat.mod_lt _ (Nat.two_pow_pos _)
    have hP : 2 ^ sh = 2 * 2 ^ (sh - 1) := by
      calc 2 ^ sh = 2 ^ (sh - 1 + 1) := by rw [Nat.sub_add_cancel hsh]
        _ = 2 * 2 ^ (sh - 1) := Nat.pow_succ'
    generalize hq : n / 2 ^ sh = q at hq1 hq2 h hn
    generalize hrr : n % 2 ^ sh = r at h hn hr
    have hgap := mag_gap e0 m0 sh q hm0 hsh hq1 hq2
    rw [Nat.add_mul, Nat.one_mul] at hgap
    by_cases hup : roundsUp q r (2 ^ (sh - 1)) = true
    · rw [if_pos hup] at h
      have hmag := mag_pack s sh (q + 1) e m (by omega) (by omega) h
      rw [Nat.add_mul, Nat.one_mul] at hmag
      unfold roundsUp at hup
      rw [Bool.or_eq_true, Bool.and_eq_true, decide_eq_true_eq, decide_eq_true_eq,
        decide_eq_true_eq] at hup
      rw [Nat.mul_comm] at hn
      generalize q * 2 ^ sh = A at hn hgap hmag
      generalize 2 ^ (sh - 1) = H at hP hup
      generalize 2 ^ sh = P at hn hgap hmag hP hr
      omega
    · rw [if_neg hup] at h
      have hmag := mag_pack s sh q e m (by omega) (by omega) h
      unfold roundsUp at hup
      rw [Bool.or_eq_true, Bool.and_eq_true, decide_eq_true_eq, decide_eq_true_eq,
        decide_eq_true_eq] at hup
      rw [Nat.mul_comm] at hn
      generalize q * 2 ^ sh = A at hn hgap hmag
      generalize 2 ^ (sh - 1) = H at hP hup
      generalize 2 ^ sh = P at hn hgap hmag hP hr
      omega

end F64

namespace F64

/-- Packing keeps the sign it is given. -/
theorem pack_sign (s0 : Bool) (sh q : Nat) (s : Bool) (e m : Nat)
    (h : pack s0 sh q = fin s e m) : s = s0 := by
  unfold pack at h
  split at h
  · split at h
    · cases h
    · exact (F64.fin.inj h).1.symm
  · split at h
    · cases h
    · exact (F64.fin.inj h).1.symm

/-- Rounding keeps the sign it is given. -/
theorem ofMag_sign (s0 s : Bool) (n e m : Nat) (h : ofMag s0 n = fin s e m) : s = s0 := by
  unfold ofMag at h
  split at h
  · split at h
    · exact (F64.fin.inj h).1.symm
    · exact (F64.fin.inj h).1.symm
  · exact pack_sign s0 _ _ s e m h

/-- Addition rounds to nearest: a finite sum of two finite doubles is at least
as close to the exact sum as any double. -/
theorem add_nearest (a b : F64) (ha : a.isFinite = true) (hb : b.isFinite = true)
    (s : Bool) (e m : Nat) (h : add a b = fin s e m)
    (s0 : Bool) (e0 m0 : Nat) (hm0 : m0 < 2 ^ 52) :
    (scaled (fin s e m) - (scaled a + scaled b)).natAbs
      ≤ (scaled (fin s0 e0 m0) - (scaled a + scaled b)).natAbs := by
  cases a <;> cases b <;> simp [isFinite] at ha hb
  rename_i s1 e1 m1 s2 e2 m2
  rw [add_fin] at h
  generalize scaled (fin s1 e1 m1) + scaled (fin s2 e2 m2) = x at h ⊢
  by_cases hx : x = 0
  · rw [if_pos hx] at h
    obtain ⟨_, h2, h3⟩ := F64.fin.inj h
    subst h2; subst h3; subst hx
    cases s <;> simp [scaled, mag]
  · rw [if_neg hx] at h
    have hs := ofMag_sign _ _ _ _ _ h
    rw [← hs] at h
    have hn := ofMag_nearest s x.natAbs e m e0 m0 h hm0
    have hsx : (x < 0) ↔ s = true := by rw [hs]; simp
    simp only [scaled]
    generalize mag e m = M at hn ⊢
    generalize mag e0 m0 = M0 at hn ⊢
    cases s <;> cases s0 <;> simp at hsx ⊢ <;> omega

/-- Subtraction of finite doubles is anti-symmetric: `a - b == -(b - a)`, and
the two are the same double unless the difference is zero. -/
theorem sub_antisymm (a b : F64) (ha : a.isFinite = true) (hb : b.isFinite = true) :
    feq (sub a b) (neg (sub b a)) = true
      ∧ (scaled a ≠ scaled b → sub a b = neg (sub b a)) := by
  cases a <;> cases b <;> simp [isFinite] at ha hb
  rename_i s1 e1 m1 s2 e2 m2
  have n1 : scaled (fin (!s1) e1 m1) = - scaled (fin s1 e1 m1) := scaled_neg (fin s1 e1 m1)
  have n2 : scaled (fin (!s2) e2 m2) = - scaled (fin s2 e2 m2) := scaled_neg (fin s2 e2 m2)
  have hs1 : sub (fin s1 e1 m1) (fin s2 e2 m2) = add (fin s1 e1 m1) (fin (!s2) e2 m2) := rfl
  have hs2 : sub (fin s2 e2 m2) (fin s1 e1 m1) = add (fin s2 e2 m2) (fin (!s1) e1 m1) := rfl
  rw [hs1, hs2, add_fin, add_fin, n1, n2]
  generalize scaled (fin s1 e1 m1) = x
  generalize scaled (fin s2 e2 m2) = y
  by_cases hxy : x + -y = 0
  · have hyx : y + -x = 0 := by omega
    rw [if_pos hxy, if_pos hyx]
    exact ⟨feq_zeros _ _ (by simp [isZero]) (by simp [isZero, neg]),
      fun hne => absurd (by omega) hne⟩
  · have hyx : ¬ (y + -x = 0) := by omega
    rw [if_neg hxy, if_neg hyx, neg_ofMag]
    have h1 : (!decide (y + -x < 0)) = decide (x + -y < 0) := by
      by_cases hlt : x + -y < 0
      · have : ¬ (y + -x < 0) := by omega
        simp [hlt, this]
      · have : y + -x < 0 := by omega
        simp [hlt, this]
    have h2 : (y + -x).natAbs = (x + -y).natAbs := by omega
    rw [h1, h2]
    exact ⟨feq_self _ (ofMag_ne_nan _ _), fun _ => rfl⟩

/-- Adding `0.0` to a finite double gives the double back, except that
`-0.0 + 0.0` is `+0.0`. -/
theorem add_zero_fin (a : F64) (ha : a.isFinite = true) (hwf : a.WF) :
    feq (add a zero) a = true ∧ (a ≠ fin true 0 0 → add a zero = a) := by
  have hz : scaled a = scaled a + scaled zero := by simp [zero, scaled, mag]
  obtain ⟨h1, h2⟩ := add_exact a zero a ha rfl ha hwf hz
  refine ⟨h1, fun hne => ?_⟩
  by_cases h0 : a.isZero = false
  · exact h2 h0
  · cases a with
    | nan => simp [isFinite] at ha
    | inf s => simp [isFinite] at ha
    | fin s e m =>
      simp [isZero] at h0
      obtain ⟨he, hm⟩ := h0
      subst he; subst hm
      cases s
      · rfl
      · exact absurd rfl hne

/-- Subtracting `0.0` from a finite double gives the double back. -/
theorem sub_zero_fin (a : F64) (ha : a.isFinite = true) (hwf : a.WF) :
    sub a zero = a := by
  have hz : scaled a = scaled a + scaled (neg zero) := by simp [zero, neg, scaled, mag]
  obtain ⟨_, h2⟩ := add_exact a (neg zero) a ha rfl ha hwf hz
  by_cases h0 : a.isZero = false
  · exact h2 h0
  · cases a with
    | nan => simp [isFinite] at ha
    | inf s => simp [isFinite] at ha
    | fin s e m =>
      simp [isZero] at h0
      obtain ⟨he, hm⟩ := h0
      subst he; subst hm
      cases s <;> rfl

/-- A NaN operand makes the sum a NaN. -/
theorem add_nan (a b : F64) (h : a.isNaN = true ∨ b.isNaN = true) : add a b = nan := by
  cases a <;> cases b <;> simp [isNaN] at h <;> rfl

/-- A NaN operand makes the difference a NaN. -/
theorem sub_nan (a b : F64) (h : a.isNaN = true ∨ b.isNaN = true) : sub a b = nan := by
  cases a <;> cases b <;> simp [isNaN] at h <;> rfl

/-- The sum of two finite doubles is an infinity exactly when the exact sum
reaches `overflowAt` in magnitude, and is a finite double otherwise. -/
theorem add_overflow (a b : F64) (ha : a.isFinite = true) (hb : b.isFinite = true) :
    (overflowAt ≤ (scaled a + scaled b).natAbs →
        add a b = inf (decide (scaled a + scaled b < 0)))
      ∧ ((scaled a + scaled b).natAbs < overflowAt →
        (add a b).isFinite = true ∧ (add a b).WF) := by
  cases a <;> cases b <;> simp [isFinite] at ha hb
  rename_i s1 e1 m1 s2 e2 m2
  rw [add_fin]
  generalize scaled (fin s1 e1 m1) + scaled (fin s2 e2 m2) = x
  constructor
  · intro h
    have hx : x ≠ 0 := by
      intro h0; subst h0
      simp [overflowAt] at h
    rw [if_neg hx]
    exact ofMag_overflow _ _ h
  · intro h
    by_cases hx : x = 0
    · rw [if_pos hx]
      exact ⟨rfl, by simp [WF]⟩
    · rw [if_neg hx]
      obtain ⟨e, m, h1, h2, h3⟩ := ofMag_finite (decide (x < 0)) x.natAbs h
      rw [h1]
      exact ⟨rfl, h2, h3⟩

end F64

/-! ## Calls running at the same time -/

/-- What a statement does to the frame of its call does not depend on the
stream. -/
theorem Thread.step_frame (t : Thread) (c c0 : String) : (t.step c).1 = (t.step c0).1 := by
  unfold Thread.step
  cases t.code <;> rfl

theorem Thread.advance_succ (k : Nat) (t : Thread) (c : String) :
    Thread.advance (k + 1) t = Thread.advance k (t.step c).1 := by
  rcases t with ⟨code, fr⟩
  cases code with
  | nil =>
    simp only [Thread.advance, Thread.step]
    cases k <;> simp [Thread.advance]
  | cons st rest => simp [Thread.advance, Thread.step]

theorem Thread.advance_add (a b : Nat) (t : Thread) :
    Thread.advance (a + b) t = Thread.advance a (Thread.advance b t) := by
  induction b generalizing t with
  | zero => rfl
  | succ b ih =>
    rw [← Nat.add_assoc, Thread.advance_succ _ _ "", Thread.advance_succ _ _ "", ih]

theorem Thread.advance_nil (k : Nat) (fr : Frame) :
    Thread.advance k { code := [], frame := fr } = { code := [], frame := fr } := by
  cases k <;> simp [Thread.advance]

/-- Under any schedule the first call is where it would be on its own after
as many statements as the schedule gave it. -/
theorem Sys.run_t1 (s : Sys) (sched : List Bool) :
    (s.run sched).t1 = s.t1.advance (sched.count false) := by
  induction sched generalizing s with
  | nil => rfl
  | cons b rest ih =>
    have hrun : s.run (b :: rest) = (s.step b).run rest := rfl
    rw [hrun, ih]
    cases b
    · rw [List.count_cons_self, Thread.advance_succ _ _ s.cout]
      rfl
    · rw [List.count_cons_of_ne (by decide)]
      rfl

/-- Under any schedule the second call is where it would be on its own after
as many statements as the schedule gave it. -/
theorem Sys.run_t2 (s : Sys) (sched : List Bool) :
    (s.run sched).t2 = s.t2.advance (sched.count true) := by
  induction sched generalizing s with
  | nil => rfl
  | cons b rest ih =>
    have hrun : s.run (b :: rest) = (s.step b).run rest := rfl
    rw [hrun, ih]
    cases b
    · rw [List.count_cons_of_ne (by decide)]
      rfl
    · rw [List.count_cons_self, Thread.advance_succ _ _ s.cout]
      rfl

/-- The body of `Add` run to its end, whatever else runs in between. -/
theorem advance_AddBody (fmt : F64 → String) (k : Nat) (fr : Frame)
    (h : (CalculatorServiceImpl.AddBody fmt).length ≤ k) :
    Thread.advance k { code := CalculatorServiceImpl.AddBody fmt, frame := fr } =
      { code := [],
        frame := { request := fr.request,
                   reply := { result := fr.request.number1 + fr.request.number2 },
                   result := fr.request.number1 + fr.request.number2,
                   ret := some Status.OK } } := by
  obtain ⟨j, rfl⟩ : ∃ j, k = j + 10 := ⟨k - 10, by simp [CalculatorServiceImpl.AddBody] at h; omega⟩
  rw [Thread.advance_add]
  exact Thread.advance_nil j _

/-- The body of `Subtract` run to its end, whatever else runs in between. -/
theorem advance_SubtractBody (fmt : F64 → String) (k : Nat) (fr : Frame)
    (h : (CalculatorServiceImpl.SubtractBody fmt).length ≤ k) :
    Thread.advance k { code := CalculatorServiceImpl.SubtractBody fmt, frame := fr } =
      { code := [],
        frame := { request := fr.request,
                   reply := { result := fr.request.number1 - fr.request.number2 },
                   result := fr.request.number1 - fr.request.number2,
                   ret := some Status.OK } } := by
  obtain ⟨j, rfl⟩ : ∃ j, k = j + 10 :=
    ⟨k - 10, by simp [CalculatorServiceImpl.SubtractBody] at h; omega⟩
  rw [Thread.advance_add]
  exact Thread.advance_nil j _

/-- Run on its own, the body of `Add` does what `Add` does. -/
theorem execBody_AddBody (fmt : F64 → String) (fr : Frame) (cout : String) :
    execBody (CalculatorServiceImpl.AddBody fmt) fr cout =
      ({ request := fr.request,
         reply := (CalculatorServiceImpl.Add fmt fr.request fr.reply cout).reply,
         result := fr.request.number1 + fr.request.number2,
         ret := some (CalculatorServiceImpl.Add fmt fr.request fr.reply cout).status },
       (CalculatorServiceImpl.Add fmt fr.request fr.reply cout).cout) := by
  simp [execBody, CalculatorServiceImpl.AddBody, CalculatorServiceImpl.Add, Stmt.onFrame,
    Stmt.onCout, String.append_assoc]

/-- Run on its own, the body of `Subtract` does what `Subtract` does. -/
theorem execBody_SubtractBody (fmt : F64 → String) (fr : Frame) (cout : String) :
    execBody (CalculatorServiceImpl.SubtractBody fmt) fr cout =
      ({ request := fr.request,
         reply := (CalculatorServiceImpl.Subtract fmt fr.request fr.reply cout).reply,
         result := fr.request.number1 - fr.request.number2,
         ret := some (CalculatorServiceImpl.Subtract fmt fr.request fr.reply cout).status },
       (CalculatorServiceImpl.Subtract fmt fr.request fr.reply cout).cout) := by
  simp [execBody, CalculatorServiceImpl.SubtractBody, CalculatorServiceImpl.Subtract,
    Stmt.onFrame, Stmt.onCout, String.append_assoc]

/-! ## Subtraction through addition -/

namespace F64

theorem isFinite_neg (a : F64) : (neg a).isFinite = a.isFinite := by
  cases a <;> rfl

/-- When the exact difference of two finite doubles is itself a double, the
difference is that double (up to the sign of a zero). -/
theorem sub_exact (a b c : F64) (ha : a.isFinite = true) (hb : b.isFinite = true)
    (hc : c.isFinite = true) (hwf : c.WF) (h : scaled c = scaled a - scaled b) :
    feq (sub a b) c = true ∧ (c.isZero = false → sub a b = c) :=
  add_exact a (neg b) c ha (by rw [isFinite_neg]; exact hb) hc hwf
    (by rw [scaled_neg, h]; omega)

/-- Subtraction rounds to nearest. -/
theorem sub_nearest (a b : F64) (ha : a.isFinite = true) (hb : b.isFinite = true)
    (s : Bool) (e m : Nat) (h : sub a b = fin s e m)
    (s0 : Bool) (e0 m0 : Nat) (hm0 : m0 < 2 ^ 52) :
    (scaled (fin s e m) - (scaled a - scaled b)).natAbs
      ≤ (scaled (fin s0 e0 m0) - (scaled a - scaled b)).natAbs := by
  have := add_nearest a (neg b) ha (by rw [isFinite_neg]; exact hb) s e m h s0 e0 m0 hm0
  rw [scaled_neg] at this
  have e1 : scaled a - scaled b = scaled a + -scaled b := by omega
  rw [e1]; exact this

/-- The difference of two finite doubles is an infinity exactly when the exact
difference reaches `overflowAt` in magnitude, and is finite otherwise. -/
theorem sub_overflow (a b : F64) (ha : a.isFinite = true) (hb : b.isFinite = true) :
    (overflowAt ≤ (scaled a - scaled b).natAbs →
        sub a b = inf (decide (scaled a - scaled b < 0)))
      ∧ ((scaled a - scaled b).natAbs < overflowAt →
        (sub a b).isFinite = true ∧ (sub a b).WF) := by
  have := add_overflow a (neg b) ha (by rw [isFinite_neg]; exact hb)
  rw [scaled_neg] at this
  have e1 : scaled a - scaled b = scaled a + -scaled b := by omega
  rw [e1]; exact this

end F64

/-! ## The claims -/

/-- C1: for finite operands `a`, `b`, `Add` sets the result field to `a + b`,
the sum of the two doubles: never a NaN, the exact sum whenever the exact sum
is a double, and otherwise, when finite, a double nearest to the exact sum.
`Add(2, 3)` gives 5 and `Add(-4.5, 4.5)` gives 0. -/
theorem C1_add_result (fmt : F64 → String) (a b : F64) (reply : OperationResponse)
    (cout : String) (ha : a.isFinite = true) (hb : b.isFinite = true) :
    (CalculatorServiceImpl.Add fmt ⟨a, b⟩ reply cout).reply.result = a + b
    ∧ (CalculatorServiceImpl.Add fmt ⟨a, b⟩ reply cout).reply.result ≠ F64.nan
    ∧ (∀ c : F64, c.isFinite = true → c.WF → c.scaled = a.scaled + b.scaled →
        F64.feq (CalculatorServiceImpl.Add fmt ⟨a, b⟩ reply cout).reply.result c = true
        ∧ (c.isZero = false →
            (CalculatorServiceImpl.Add fmt ⟨a, b⟩ reply cout).reply.result = c))
    ∧ (∀ (s : Bool) (e m : Nat),
        (CalculatorServiceImpl.Add fmt ⟨a, b⟩ reply cout).reply.result = F64.fin s e m →
        ∀ (s0 : Bool) (e0 m0 : Nat), m0 < 2 ^ 52 →
          ((F64.fin s e m).scaled - (a.scaled + b.scaled)).natAbs
            ≤ ((F64.fin s0 e0 m0).scaled - (a.scaled + b.scaled)).natAbs)
    ∧ (CalculatorServiceImpl.Add fmt ⟨F64.ofDyadic 2 0, F64.ofDyadic 3 0⟩ reply cout).reply.result
        = F64.ofDyadic 5 0
    ∧ (CalculatorServiceImpl.Add fmt ⟨F64.ofDyadic (-9) 1, F64.ofDyadic 9 1⟩ reply cout).reply.result
        = F64.ofDyadic 0 0 :=
  ⟨rfl, F64.add_fin_ne_nan a b ha hb,
   fun c hc hwf h => F64.add_exact a b c ha hb hc hwf h,
   fun s e m h s0 e0 m0 hm0 => F64.add_nearest a b ha hb s e m h s0 e0 m0 hm0,
   show F64.ofDyadic 2 0 + F64.ofDyadic 3 0 = F64.ofDyadic 5 0 by decide,
   show F64.ofDyadic (-9) 1 + F64.ofDyadic 9 1 = F64.ofDyadic 0 0 by decide⟩

/-- C1 at `Add(2, 3)`: both operands are finite and the result is the double 5,
whose magnitude is `5 * 2^1074` units of `2^-1074`. -/
theorem C1_add_result_witness :
    (F64.ofDyadic 2 0).isFinite = true ∧ (F64.ofDyadic 3 0).isFinite = true
    ∧ (CalculatorServiceImpl.Add fmtDemo ⟨F64.ofDyadic 2 0, F64.ofDyadic 3 0⟩ ⟨F64.nan⟩ "").reply.result
        = F64.ofDyadic 2 0 + F64.ofDyadic 3 0
    ∧ F64.ofDyadic 2 0 + F64.ofDyadic 3 0 = F64.fin false 1025 (2 ^ 50)
    ∧ F64.mag 1025 (2 ^ 50) = 5 * 2 ^ 1074 :=
  ⟨by decide, by decide,
   (C1_add_result fmtDemo (F64.ofDyadic 2 0) (F64.ofDyadic 3 0) ⟨F64.nan⟩ ""
      (by decide) (by decide)).1,
   by decide, by decide⟩

/-- C2: for finite operands `a`, `b`, `Subtract` sets the result field to
`a - b`, `number1` the minuend and `number2` the subtrahend: never a NaN, the
exact difference whenever that is a double, and otherwise, when finite, a
double nearest to it.  `Subtract(10, 7)` gives 3 and `Subtract(0, 5)` gives -5. -/
theorem C2_subtract_result (fmt : F64 → String) (a b : F64) (reply : OperationResponse)
    (cout : String) (ha : a.isFinite = true) (hb : b.isFinite = true) :
    (CalculatorServiceImpl.Subtract fmt ⟨a, b⟩ reply cout).reply.result = a - b
    ∧ (CalculatorServiceImpl.Subtract fmt ⟨a, b⟩ reply cout).reply.result ≠ F64.nan
    ∧ (∀ c : F64, c.isFinite = true → c.WF → c.scaled = a.scaled - b.scaled →
        F64.feq (CalculatorServiceImpl.Subtract fmt ⟨a, b⟩ reply cout).reply.result c = true
        ∧ (c.isZero = false →
            (CalculatorServiceImpl.Subtract fmt ⟨a, b⟩ reply cout).reply.result = c))
    ∧ (∀ (s : Bool) (e m : Nat),
        (CalculatorServiceImpl.Subtract fmt ⟨a, b⟩ reply cout).reply.result = F64.fin s e m →
        ∀ (s0 : Bool) (e0 m0 : Nat), m0 < 2 ^ 52 →
          ((F64.fin s e m).scaled - (a.scaled - b.scaled)).natAbs
            ≤ ((F64.fin s0 e0 m0).scaled - (a.scaled - b.scaled)).natAbs)
    ∧ (CalculatorServiceImpl.Subtract fmt ⟨F64.ofDyadic 10 0, F64.ofDyadic 7 0⟩ reply
        cout).reply.result = F64.ofDyadic 3 0
    ∧ (CalculatorServiceImpl.Subtract fmt ⟨F64.ofDyadic 0 0, F64.ofDyadic 5 0⟩ reply
        cout).reply.result = F64.ofDyadic (-5) 0 :=
  ⟨rfl,
   F64.add_fin_ne_nan a (F64.neg b) ha (by rw [F64.isFinite_neg]; exact hb),
   fun c hc hwf h => F64.sub_exact a b c ha hb hc hwf h,
   fun s e m h s0 e0 m0 hm0 => F64.sub_nearest a b ha hb s e m h s0 e0 m0 hm0,
   show F64.ofDyadic 10 0 - F64.ofDyadic 7 0 = F64.ofDyadic 3 0 by decide,
   show F64.ofDyadic 0 0 - F64.ofDyadic 5 0 = F64.ofDyadic (-5) 0 by decide⟩

/-- C2 at `Subtract(10, 7)`: both operands are finite and the result is the
double 3, whose magnitude is `3 * 2^1074` units of `2^-1074`. -/
theorem C2_subtract_result_witness :
    (F64.ofDyadic 10 0).isFinite = true ∧ (F64.ofDyadic 7 0).isFinite = true
    ∧ (CalculatorServiceImpl.Subtract fmtDemo ⟨F64.ofDyadic 10 0, F64.ofDyadic 7 0⟩ ⟨F64.nan⟩
        "").reply.result = F64.ofDyadic 10 0 - F64.ofDyadic 7 0
    ∧ F64.ofDyadic 10 0 - F64.ofDyadic 7 0 = F64.fin false 1024 (2 ^ 51)
    ∧ F64.mag 1024 (2 ^ 51) = 3 * 2 ^ 1074 :=
  ⟨by decide, by decide,
   (C2_subtract_result fmtDemo (F64.ofDyadic 10 0) (F64.ofDyadic 7 0) ⟨F64.nan⟩ ""
      (by decide) (by decide)).1,
   by decide, by decide⟩

/-- C3: for every request, whatever its operands, `Add` and `Subtract` return
`Status::OK` and store the sum, respectively the difference, in the reply,
whatever the reply held before. -/
theorem C3_always_ok (fmt : F64 → String) (request : OperationRequest)
    (reply : OperationResponse) (cout : String) :
    (CalculatorServiceImpl.Add fmt request reply cout).status = Status.OK
    ∧ (CalculatorServiceImpl.Add fmt request reply cout).reply
        = { result := request.number1 + request.number2 }
    ∧ (CalculatorServiceImpl.Subtract fmt request reply cout).status = Status.OK
    ∧ (CalculatorServiceImpl.Subtract fmt request reply cout).reply
        = { result := request.number1 - request.number2 } :=
  ⟨rfl, rfl, rfl, rfl⟩

/-- C4: `Add` is commutative in its operands: for finite `a` and `b` the
result for `(a, b)` is the result for `(b, a)`. -/
theorem C4_add_commutative (fmt : F64 → String) (a b : F64)
    (reply1 reply2 : OperationResponse) (cout1 cout2 : String)
    (ha : a.isFinite = true) (hb : b.isFinite = true) :
    (CalculatorServiceImpl.Add fmt ⟨a, b⟩ reply1 cout1).reply.result
      = (CalculatorServiceImpl.Add fmt ⟨b, a⟩ reply2 cout2).reply.result :=
  F64.add_comm_fin a b ha hb

/-- C4 at `Add(2, 3)` and `Add(3, 2)`. -/
theorem C4_add_commutative_witness :
    (F64.ofDyadic 2 0).isFinite = true ∧ (F64.ofDyadic 3 0).isFinite = true
    ∧ (CalculatorServiceImpl.Add fmtDemo ⟨F64.ofDyadic 2 0, F64.ofDyadic 3 0⟩ ⟨F64.nan⟩ "").reply.result
      = (CalculatorServiceImpl.Add fmtDemo ⟨F64.ofDyadic 3 0, F64.ofDyadic 2 0⟩ ⟨F64.nan⟩ "").reply.result :=
  ⟨by decide, by decide,
   C4_add_commutative fmtDemo (F64.ofDyadic 2 0) (F64.ofDyadic 3 0) ⟨F64.nan⟩ ⟨F64.nan⟩ "" ""
     (by decide) (by decide)⟩

/-- C5: `Subtract` is anti-symmetric: for finite `a` and `b` the result for
`(a, b)` equals (`==`) the negation of the result for `(b, a)`, and is the
very same double unless the two operands have the same value. -/
theorem C5_subtract_antisymmetric (fmt : F64 → String) (a b : F64)
    (reply1 reply2 : OperationResponse) (cout1 cout2 : String)
    (ha : a.isFinite = true) (hb : b.isFinite = true) :
    F64.feq (CalculatorServiceImpl.Subtract fmt ⟨a, b⟩ reply1 cout1).reply.result
        (-(CalculatorServiceImpl.Subtract fmt ⟨b, a⟩ reply2 cout2).reply.result) = true
    ∧ (a.scaled ≠ b.scaled →
        (CalculatorServiceImpl.Subtract fmt ⟨a, b⟩ reply1 cout1).reply.result
          = -(CalculatorServiceImpl.Subtract fmt ⟨b, a⟩ reply2 cout2).reply.result) :=
  F64.sub_antisymm a b ha hb

/-- C5 at `Subtract(10, 7)` and `Subtract(7, 10)`. -/
theorem C5_subtract_antisymmetric_witness :
    (F64.ofDyadic 10 0).isFinite = true ∧ (F64.ofDyadic 7 0).isFinite = true
    ∧ F64.feq
        (CalculatorServiceImpl.Subtract fmtDemo ⟨F64.ofDyadic 10 0, F64.ofDyadic 7 0⟩ ⟨F64.nan⟩
          "").reply.result
        (-(CalculatorServiceImpl.Subtract fmtDemo ⟨F64.ofDyadic 7 0, F64.ofDyadic 10 0⟩ ⟨F64.nan⟩
          "").reply.result) = true :=
  ⟨by decide, by decide,
   (C5_subtract_antisymmetric fmtDemo (F64.ofDyadic 10 0) (F64.ofDyadic 7 0) ⟨F64.nan⟩ ⟨F64.nan⟩
      "" "" (by decide) (by decide)).1⟩

/-- C6: zero is a right identity: for every finite `a`, `Add` on `(a, 0)` and
`Subtract` on `(a, 0)` give a result equal (`==`) to `a`; the difference is
the very double `a`, and so is the sum unless `a` is `-0.0`. -/
theorem C6_zero_right_identity (fmt : F64 → String) (a : F64) (reply : OperationResponse)
    (cout : String) (ha : a.isFinite = true) (hwf : a.WF) :
    F64.feq (CalculatorServiceImpl.Add fmt ⟨a, F64.zero⟩ reply cout).reply.result a = true
    ∧ F64.feq (CalculatorServiceImpl.Subtract fmt ⟨a, F64.zero⟩ reply cout).reply.result a = true
    ∧ (CalculatorServiceImpl.Subtract fmt ⟨a, F64.zero⟩ reply cout).reply.result = a
    ∧ (a ≠ F64.fin true 0 0 →
        (CalculatorServiceImpl.Add fmt ⟨a, F64.zero⟩ reply cout).reply.result = a) := by
  have hs : (CalculatorServiceImpl.Subtract fmt ⟨a, F64.zero⟩ reply cout).reply.result = a :=
    F64.sub_zero_fin a ha hwf
  refine ⟨(F64.add_zero_fin a ha hwf).1, ?_, hs, (F64.add_zero_fin a ha hwf).2⟩
  rw [hs]
  apply F64.feq_self
  intro h
  rw [h] at ha
  cases ha

/-- C6 at `a = 7`. -/
theorem C6_zero_right_identity_witness :
    (F64.ofDyadic 7 0).isFinite = true ∧ (F64.ofDyadic 7 0).WF
    ∧ F64.feq (CalculatorServiceImpl.Add fmtDemo ⟨F64.ofDyadic 7 0, F64.zero⟩ ⟨F64.nan⟩
        "").reply.result (F64.ofDyadic 7 0) = true
    ∧ (CalculatorServiceImpl.Subtract fmtDemo ⟨F64.ofDyadic 7 0, F64.zero⟩ ⟨F64.nan⟩
        "").reply.result = F64.ofDyadic 7 0 :=
  ⟨by decide, by decide,
   (C6_zero_right_identity fmtDemo (F64.ofDyadic 7 0) ⟨F64.nan⟩ "" (by decide) (by decide)).1,
   (C6_zero_right_identity fmtDemo (F64.ofDyadic 7 0) ⟨F64.nan⟩ "" (by decide) (by decide)).2.2.1⟩

/-! ## Sequences, concurrent calls, non-finite values and the log -/

/-- What a call answers does not depend on the stream it finds. -/
theorem dispatch_answer (fmt : F64 → String) (c : Call) (cout cout0 : String) :
    ((dispatch fmt c cout).status, (dispatch fmt c cout).reply)
      = ((dispatch fmt c cout0).status, (dispatch fmt c cout0).reply) := by
  cases c <;> rfl

/-- The answers of a sequence of calls are the answers of the calls one by one. -/
theorem serveAll_answers (fmt : F64 → String) (calls : List Call) (cout cout0 : String) :
    (serveAll fmt calls cout).1
      = calls.map (fun c => ((dispatch fmt c cout0).status, (dispatch fmt c cout0).reply)) := by
  induction calls generalizing cout with
  | nil => rfl
  | cons c rest ih =>
    simp only [serveAll, List.map_cons]
    rw [ih, dispatch_answer fmt c cout cout0]

/-- Calls of the same handler with the same request answer the same. -/
theorem dispatch_same (fmt : F64 → String) (c c0 : Call) (cout cout0 : String)
    (hop : c.sameOp c0 = true) (hreq : c.request = c0.request) :
    ((dispatch fmt c cout).status, (dispatch fmt c cout).reply)
      = ((dispatch fmt c0 cout0).status, (dispatch fmt c0 cout0).reply) := by
  cases c <;> cases c0 <;> simp [Call.sameOp] at hop <;> simp [Call.request] at hreq <;>
    subst hreq <;> rfl

/-- C7: the handlers are stateless and deterministic.  In any sequence of
calls on one service instance the status and reply of each call are those the
call gives on its own, whatever the stream holds; they depend on the handler
and the request only; so two calls of the same handler with the same request,
anywhere in a sequence, answer the same. -/
theorem C7_stateless_deterministic (fmt : F64 → String) :
    (∀ (calls : List Call) (cout cout0 : String),
      (serveAll fmt calls cout).1
        = calls.map (fun c => ((dispatch fmt c cout0).status, (dispatch fmt c cout0).reply)))
    ∧ (∀ (c c0 : Call) (cout cout0 : String),
        c.sameOp c0 = true → c.request = c0.request →
        ((dispatch fmt c cout).status, (dispatch fmt c cout).reply)
          = ((dispatch fmt c0 cout0).status, (dispatch fmt c0 cout0).reply))
    ∧ (∀ (pre mid post : List Call) (c c0 : Call) (cout : String),
        c.sameOp c0 = true → c.request = c0.request →
        ∃ (x : Status × OperationResponse) (ps ms qs : List (Status × OperationResponse)),
          ps.length = pre.length ∧ ms.length = mid.length ∧ qs.length = post.length
          ∧ (serveAll fmt (pre ++ c :: (mid ++ c0 :: post)) cout).1
              = ps ++ x :: (ms ++ x :: qs)) := by
  refine ⟨serveAll_answers fmt, dispatch_same fmt, ?_⟩
  intro pre mid post c c0 cout hop hreq
  refine ⟨((dispatch fmt c "").status, (dispatch fmt c "").reply),
    pre.map (fun c => ((dispatch fmt c "").status, (dispatch fmt c "").reply)),
    mid.map (fun c => ((dispatch fmt c "").status, (dispatch fmt c "").reply)),
    post.map (fun c => ((dispatch fmt c "").status, (dispatch fmt c "").reply)),
    by simp, by simp, by simp, ?_⟩
  rw [serveAll_answers fmt _ cout "", List.map_append, List.map_cons, List.map_append,
    List.map_cons, dispatch_same fmt c0 c "" "" (by cases c <;> cases c0 <;> simp_all [Call.sameOp])
      hreq.symm]

/-- C7 on the sequence `Add(2, 3)`, `Subtract(10, 7)`, `Add(2, 3)`: the first
and the last call answer the same, 5 with `Status::OK`. -/
theorem C7_stateless_deterministic_witness :
    (serveAll fmtDemo
        [Call.add ⟨F64.ofDyadic 2 0, F64.ofDyadic 3 0⟩ ⟨F64.nan⟩,
         Call.subtract ⟨F64.ofDyadic 10 0, F64.ofDyadic 7 0⟩ ⟨F64.nan⟩,
         Call.add ⟨F64.ofDyadic 2 0, F64.ofDyadic 3 0⟩ ⟨F64.zero⟩] "").1
      = [(Status.OK, ⟨F64.ofDyadic 5 0⟩), (Status.OK, ⟨F64.ofDyadic 3 0⟩),
         (Status.OK, ⟨F64.ofDyadic 5 0⟩)] :=
  ((C7_stateless_deterministic fmtDemo).1 _ "" "").trans (by decide)

/-- C8: `Add(1, 1)` and `Subtract(1, 1)` running at the same time on one
service instance.  The two bodies are interleaved statement by statement
under an arbitrary schedule that lets each call run all of its statements;
each call ends with `Status::OK` and its own result, 2 and 0, whatever the
order of the statements, the reply objects and locals on entry and the
contents of the stream. -/
theorem C8_concurrent_calls (fmt : F64 → String) (sched : List Bool)
    (reply1 reply2 : OperationResponse) (x1 x2 : F64) (cout : String)
    (h1 : (CalculatorServiceImpl.AddBody fmt).length ≤ sched.count false)
    (h2 : (CalculatorServiceImpl.SubtractBody fmt).length ≤ sched.count true) :
    (Sys.run
        { t1 := { code := CalculatorServiceImpl.AddBody fmt,
                  frame := ⟨⟨F64.ofDyadic 1 0, F64.ofDyadic 1 0⟩, reply1, x1, none⟩ },
          t2 := { code := CalculatorServiceImpl.SubtractBody fmt,
                  frame := ⟨⟨F64.ofDyadic 1 0, F64.ofDyadic 1 0⟩, reply2, x2, none⟩ },
          cout := cout } sched).t1
      = { code := [],
          frame := ⟨⟨F64.ofDyadic 1 0, F64.ofDyadic 1 0⟩, ⟨F64.ofDyadic 2 0⟩, F64.ofDyadic 2 0,
            some Status.OK⟩ }
    ∧ (Sys.run
        { t1 := { code := CalculatorServiceImpl.AddBody fmt,
                  frame := ⟨⟨F64.ofDyadic 1 0, F64.ofDyadic 1 0⟩, reply1, x1, none⟩ },
          t2 := { code := CalculatorServiceImpl.SubtractBody fmt,
                  frame := ⟨⟨F64.ofDyadic 1 0, F64.ofDyadic 1 0⟩, reply2, x2, none⟩ },
          cout := cout } sched).t2
      = { code := [],
          frame := ⟨⟨F64.ofDyadic 1 0, F64.ofDyadic 1 0⟩, ⟨F64.ofDyadic 0 0⟩, F64.ofDyadic 0 0,
            some Status.OK⟩ } := by
  have e1 : F64.ofDyadic 1 0 + F64.ofDyadic 1 0 = F64.ofDyadic 2 0 := by decide
  have e2 : F64.ofDyadic 1 0 - F64.ofDyadic 1 0 = F64.ofDyadic 0 0 := by decide
  constructor
  · rw [Sys.run_t1, advance_AddBody fmt _ _ h1]
    simp only [e1]
  · rw [Sys.run_t2, advance_SubtractBody fmt _ _ h2]
    simp only [e2]

/-- C8 under the schedule that alternates between the two calls. -/
theorem C8_concurrent_calls_witness :
    (CalculatorServiceImpl.AddBody fmtDemo).length
        ≤ schedDemo.count false
    ∧ (CalculatorServiceImpl.SubtractBody fmtDemo).length
        ≤ schedDemo.count true
    ∧ (Sys.run
        { t1 := { code := CalculatorServiceImpl.AddBody fmtDemo,
                  frame := ⟨⟨F64.ofDyadic 1 0, F64.ofDyadic 1 0⟩, ⟨F64.nan⟩, F64.nan, none⟩ },
          t2 := { code := CalculatorServiceImpl.SubtractBody fmtDemo,
                  frame := ⟨⟨F64.ofDyadic 1 0, F64.ofDyadic 1 0⟩, ⟨F64.nan⟩, F64.nan, none⟩ },
          cout := "" } schedDemo).t1.frame.reply.result
        = F64.ofDyadic 2 0 :=
  ⟨by decide, by decide,
   congrArg (fun t => t.frame.reply.result)
     (C8_concurrent_calls fmtDemo schedDemo
        ⟨F64.nan⟩ ⟨F64.nan⟩ F64.nan F64.nan "" (by decide) (by decide)).1⟩

/-- C9 as stated fails: `DBL_MAX + 1` has an exact sum above `DBL_MAX`, outside
the range of finite doubles, and `Add` gives `DBL_MAX`, not an infinity. -/
theorem C9_counterexample :
    F64.dblMax.isFinite = true ∧ (F64.ofDyadic 1 0).isFinite = true
    ∧ F64.dblMax.scaled < F64.dblMax.scaled + (F64.ofDyadic 1 0).scaled
    ∧ (CalculatorServiceImpl.Add fmtDemo ⟨F64.dblMax, F64.ofDyadic 1 0⟩ ⟨F64.nan⟩ "").reply.result
        = F64.dblMax
    ∧ (CalculatorServiceImpl.Add fmtDemo ⟨F64.dblMax, F64.ofDyadic 1 0⟩ ⟨F64.nan⟩ "").reply.result
        ≠ F64.inf false
    ∧ (CalculatorServiceImpl.Add fmtDemo ⟨F64.dblMax, F64.ofDyadic 1 0⟩ ⟨F64.nan⟩ "").status
        = Status.OK := by
  decide

/-- C9, amended: no validation is performed.  If either operand is a NaN the
result of `Add` and of `Subtract` is a NaN.  For two finite operands the
result is the infinity of the sign of the exact sum (difference) when that
has magnitude at least `2^1024 - 2^970` (`DBL_MAX` plus half a unit in its
last place), and a finite double when it has less.  In every case the result
is stored in the reply and the status is `Status::OK`. -/
theorem C9_nonfinite_propagation (fmt : F64 → String) (a b : F64)
    (reply : OperationResponse) (cout : String) :
    ((a.isNaN = true ∨ b.isNaN = true) →
        (CalculatorServiceImpl.Add fmt ⟨a, b⟩ reply cout).reply.result = F64.nan
        ∧ (CalculatorServiceImpl.Subtract fmt ⟨a, b⟩ reply cout).reply.result = F64.nan)
    ∧ (a.isFinite = true → b.isFinite = true →
        (F64.overflowAt ≤ (a.scaled + b.scaled).natAbs →
          (CalculatorServiceImpl.Add fmt ⟨a, b⟩ reply cout).reply.result
            = F64.inf (decide (a.scaled + b.scaled < 0)))
        ∧ ((a.scaled + b.scaled).natAbs < F64.overflowAt →
          (CalculatorServiceImpl.Add fmt ⟨a, b⟩ reply cout).reply.result.isFinite = true)
        ∧ (F64.overflowAt ≤ (a.scaled - b.scaled).natAbs →
          (CalculatorServiceImpl.Subtract fmt ⟨a, b⟩ reply cout).reply.result
            = F64.inf (decide (a.scaled - b.scaled < 0)))
        ∧ ((a.scaled - b.scaled).natAbs < F64.overflowAt →
          (CalculatorServiceImpl.Subtract fmt ⟨a, b⟩ reply cout).reply.result.isFinite = true))
    ∧ (CalculatorServiceImpl.Add fmt ⟨a, b⟩ reply cout).status = Status.OK
    ∧ (CalculatorServiceImpl.Subtract fmt ⟨a, b⟩ reply cout).status = Status.OK :=
  ⟨fun h => ⟨F64.add_nan a b h, F64.sub_nan a b h⟩,
   fun ha hb =>
     ⟨(F64.add_overflow a b ha hb).1, fun h => ((F64.add_overflow a b ha hb).2 h).1,
      (F64.sub_overflow a b ha hb).1, fun h => ((F64.sub_overflow a b ha hb).2 h).1⟩,
   rfl, rfl⟩

/-- C9, amended, at `DBL_MAX + DBL_MAX` and at `NaN + 1`: the first sum is
`+inf`, the second a NaN. -/
theorem C9_nonfinite_propagation_witness :
    (F64.dblMax.isFinite = true ∧ F64.overflowAt ≤ (F64.dblMax.scaled + F64.dblMax.scaled).natAbs
      ∧ (CalculatorServiceImpl.Add fmtDemo ⟨F64.dblMax, F64.dblMax⟩ ⟨F64.nan⟩ "").reply.result
          = F64.inf false)
    ∧ (F64.nan.isNaN = true
      ∧ (CalculatorServiceImpl.Add fmtDemo ⟨F64.nan, F64.ofDyadic 1 0⟩ ⟨F64.zero⟩ "").reply.result
          = F64.nan) :=
  ⟨⟨by decide, by decide,
    ((C9_nonfinite_propagation fmtDemo F64.dblMax F64.dblMax ⟨F64.nan⟩ "").2.1
        (by decide) (by decide)).1 (by decide)⟩,
   ⟨by decide,
    ((C9_nonfinite_propagation fmtDemo F64.nan (F64.ofDyadic 1 0) ⟨F64.zero⟩ "").1
        (Or.inl (by decide))).1⟩⟩

